import Mathlib

/-!
Verification of the activity-signal and notification core of the Click-style
router (`lib/notifier.cc`).  The C++ source is shallowly embedded: the
`NotifierSignal` value type and its combining operator, the `Notifier`
initialization, the `ActiveNotifier` listener-list update algorithm, and the
upstream/downstream notifier graph search with its two-pass behaviour.

Declarations whose C++ code lives in the missing header `notifier.hh` or in
`router.cc` (constructors, `operator==`, `initialized()`, `active()`,
`Router::new_notifier_signal`, `Router::upstream_elements`) are modelled from
the specification and carry a doc comment starting with `Modelled from the
spec:`.  Everything else is translated directly from `lib/notifier.cc`.
-/

namespace Click

/-- A `SignalWord` identity: the C++ code distinguishes signal words only by
the pointer `_value`; we model pointers to signal words by an id. -/
structure SignalWordId where
  id : Nat
deriving DecidableEq

/-- Modelled from the spec: the distinguished process-wide static `SignalWord`
that backs the idle/busy/overderived singletons. -/
def staticWordId : SignalWordId := ⟨0⟩

/-- Modelled from the spec: the reserved TRUE bit of the static word
(the busy singleton's mask). -/
def TRUE_MASK : Nat := 1

/-- Modelled from the spec: the reserved OVERDERIVED bit of the static word. -/
def OVERDERIVED_MASK : Nat := 2

/-- The contents `static_value = TRUE_MASK | OVERDERIVED_MASK` that
`NotifierSignal::static_initialize()` stores in the static word. -/
def staticValue : Nat := TRUE_MASK ||| OVERDERIVED_MASK

/-- A `NotifierSignal`: a pointer to a `SignalWord` (`_value`, `none` = null)
and a bit mask within it (`_mask`). -/
structure NotifierSignal where
  value : Option SignalWordId
  mask : Nat
deriving DecidableEq

/-- Modelled from the spec: the uninitialized sentinel (null pointer), the
value produced by the default constructor `NotifierSignal()`. -/
def uninitSignal : NotifierSignal := ⟨none, 0⟩

/-- Modelled from the spec: `idle_signal()`, mask 0 over the static word. -/
def idle_signal : NotifierSignal := ⟨some staticWordId, 0⟩

/-- Modelled from the spec: `busy_signal()`, mask `TRUE_MASK` over the static
word. -/
def busy_signal : NotifierSignal := ⟨some staticWordId, TRUE_MASK⟩

/-- Modelled from the spec: `overderived_signal()`, mask
`TRUE_MASK | OVERDERIVED_MASK` over the static word. -/
def overderived_signal : NotifierSignal := ⟨some staticWordId, TRUE_MASK ||| OVERDERIVED_MASK⟩

/-- Modelled from the spec: `NotifierSignal::initialized()` — "Initialized iff
the pointer is non-null". -/
def NotifierSignal.isInit (s : NotifierSignal) : Bool := s.value.isSome

/-- The masked load `load(word) & mask` a signal performs; a null pointer
contributes 0 (the C++ code would fault, see the unparse model). `load` gives
the current contents of every signal word. -/
def sigLoad (load : SignalWordId → Nat) (s : NotifierSignal) : Nat :=
  match s.value with
  | none => 0
  | some w => load w &&& s.mask

/-- Modelled from the spec: `active()` — "Active iff
`(load(word) & mask) != 0`". -/
abbrev activeAt (load : SignalWordId → Nat) (s : NotifierSignal) : Prop :=
  sigLoad load s ≠ 0

/-- Modelled from the spec: `operator==` — "Two signals are equal iff both are
uninitialized, or both reference the same word and mask", where "uninitialized"
is read as "zero mask" exactly as the spec's combining table glosses it
("R uninitialized (zero mask)"); this reading is what makes the spec's result
rules coherent with an accumulator that starts as the idle signal. -/
def sigEq (a b : NotifierSignal) : Prop :=
  (a.mask = 0 ∧ b.mask = 0) ∨ (a.value = b.value ∧ a.mask = b.mask)

instance (a b : NotifierSignal) : Decidable (sigEq a b) := by
  unfold sigEq; infer_instance

/-- The second stage of `NotifierSignal::operator+=`: preserve busy, union
same-word masks (also when the right mask is zero), collapse the rest to
overderived. -/
def addsCore (l1 r : NotifierSignal) : NotifierSignal :=
  if sigEq l1 busy_signal then l1
  else if sigEq r busy_signal then r
  else if l1.value = r.value ∨ r.mask = 0 then ⟨l1.value, l1.mask ||| r.mask⟩
  else overderived_signal

/-- `NotifierSignal::operator+=` translated line by line from the source:
first `if (!_mask) _value = a._value` (a zero-mask left side adopts the right
word), then the busy/union/overderived stage (`addsCore`). -/
def NotifierSignal.adds (l r : NotifierSignal) : NotifierSignal :=
  addsCore (if l.mask = 0 then ⟨r.value, l.mask⟩ else l) r

/-- Modelled from the spec: `operator+(NotifierSignal, const NotifierSignal&)`
is "a copy plus `+=`". -/
def NotifierSignal.plus (a b : NotifierSignal) : NotifierSignal := a.adds b

/-- `NotifierSignal::unparse` models the debugging string
`"%p/%x:%x" (_value, _mask, (*_value) & _mask)` as the triple of its fields;
the load `*_value` through a null pointer is modelled as `none` (the C++
code would dereference null there). -/
def NotifierSignal.unparseTriple (load : SignalWordId → Nat) (s : NotifierSignal) :
    Option (Option SignalWordId × Nat × Nat) :=
  match s.value with
  | none => none
  | some w => some (s.value, s.mask, load w &&& s.mask)

/-- The combining table exactly as the claim states it, with "L uninitialized"
read by the spec's own definition of initialized (null word pointer). -/
def claimCombine (l r : NotifierSignal) : NotifierSignal :=
  if l.value = none then r
  else if sigEq l busy_signal then l
  else if sigEq r busy_signal then busy_signal
  else if l.value = r.value then ⟨l.value, l.mask ||| r.mask⟩
  else if r.mask = 0 then l
  else overderived_signal

/-- The amended combining table: the first rule fires whenever the left mask
is zero (the uninitialized and the idle signal alike), as the source's
`if (!_mask) _value = a._value` does. -/
def amendCombine (l r : NotifierSignal) : NotifierSignal :=
  if l.mask = 0 then r
  else if sigEq l busy_signal then l
  else if sigEq r busy_signal then busy_signal
  else if l.value = r.value then ⟨l.value, l.mask ||| r.mask⟩
  else if r.mask = 0 then l
  else overderived_signal

lemma sigEq_busy_iff (x : NotifierSignal) : sigEq x busy_signal ↔ x = busy_signal := by
  obtain ⟨v, m⟩ := x
  constructor
  · rintro (⟨h1, h2⟩ | ⟨h1, h2⟩)
    · exact absurd h2 (by decide)
    · simp only [busy_signal] at h1 h2 ⊢
      simp [h1, h2]
  · intro h
    rw [h]
    exact Or.inr ⟨rfl, rfl⟩

lemma zero_mask_not_busy (v : Option SignalWordId) : ¬ sigEq ⟨v, 0⟩ busy_signal := by
  rw [sigEq_busy_iff]
  intro h
  have hm := congrArg NotifierSignal.mask h
  simp [busy_signal, TRUE_MASK] at hm

lemma adds_zero_mask (v : Option SignalWordId) (r : NotifierSignal) :
    NotifierSignal.adds ⟨v, 0⟩ r = r := by
  obtain ⟨rv, rm⟩ := r
  have e1 : NotifierSignal.adds ⟨v, 0⟩ ⟨rv, rm⟩ = addsCore ⟨rv, 0⟩ ⟨rv, rm⟩ := by
    unfold NotifierSignal.adds
    rw [if_pos rfl]
  rw [e1]
  unfold addsCore
  rw [if_neg (zero_mask_not_busy rv)]
  by_cases h2 : sigEq ⟨rv, rm⟩ busy_signal
  · rw [if_pos h2]
  · rw [if_neg h2, if_pos (Or.inl rfl)]
    simp [Nat.zero_or]

lemma adds_eq_addsCore_of_value_eq (v : Option SignalWordId) (ma mb : Nat) :
    NotifierSignal.adds ⟨v, ma⟩ ⟨v, mb⟩ = addsCore ⟨v, ma⟩ ⟨v, mb⟩ := by
  unfold NotifierSignal.adds
  by_cases h : ma = 0
  · subst h
    rw [if_pos rfl]
  · rw [if_neg h]

lemma nat_or_eq_zero_iff (m n : Nat) : m ||| n = 0 ↔ m = 0 ∧ n = 0 := by
  constructor
  · intro h
    constructor <;>
      · apply Nat.eq_of_testBit_eq
        intro i
        have hb := congrArg (Nat.testBit · i) h
        simp only [Nat.testBit_or, Nat.zero_testBit, Bool.or_eq_false_iff] at hb
        simp [hb.1, hb.2]
  · rintro ⟨rfl, rfl⟩
    rfl

lemma adds_idle (x : NotifierSignal) : idle_signal.adds x = x :=
  adds_zero_mask (some staticWordId) x

/-- `C6` — Idle is the identity of signal combination: for every
`NotifierSignal` `x` (the busy, overderived and uninitialized singletons
included), `idle + x == x`; the code even yields `x` itself. -/
theorem claim_C6_idle_identity (x : NotifierSignal) : idle_signal.plus x = x :=
  adds_idle x

/-- `C1` (counterexample) — the claim's table, with "L uninitialized" read by
the spec's definition (null word pointer), disagrees with `operator+=` at
`L = idle, R = a basic signal on another word`: the table demands
overderived, the code yields `R`. -/
theorem claim_C1_counterexample :
    NotifierSignal.adds idle_signal ⟨some ⟨1⟩, 4⟩ = ⟨some ⟨1⟩, 4⟩ ∧
    claimCombine idle_signal ⟨some ⟨1⟩, 4⟩ = overderived_signal ∧
    NotifierSignal.adds idle_signal ⟨some ⟨1⟩, 4⟩ ≠ claimCombine idle_signal ⟨some ⟨1⟩, 4⟩ := by
  refine ⟨by decide, by decide, by decide⟩

/-- `C1` (amended) — `operator+=` follows the ordered rule table once the
first rule reads "L has a zero mask" (covering the uninitialized and the idle
signal) instead of "L is uninitialized"; and `operator+` is a copy plus
`+=`. -/
theorem claim_C1_table (l r : NotifierSignal) :
    l.adds r = amendCombine l r ∧ l.plus r = l.adds r := by
  refine ⟨?_, rfl⟩
  obtain ⟨lv, lm⟩ := l
  obtain ⟨rv, rm⟩ := r
  by_cases h0 : lm = 0
  · subst h0
    rw [adds_zero_mask]
    unfold amendCombine
    rw [if_pos rfl]
  · have e1 : NotifierSignal.adds ⟨lv, lm⟩ ⟨rv, rm⟩ = addsCore ⟨lv, lm⟩ ⟨rv, rm⟩ := by
      unfold NotifierSignal.adds
      rw [if_neg h0]
    rw [e1]
    unfold addsCore amendCombine
    rw [if_neg h0]
    by_cases h1 : sigEq ⟨lv, lm⟩ busy_signal
    · rw [if_pos h1, if_pos h1]
    · rw [if_neg h1, if_neg h1]
      by_cases h2 : sigEq ⟨rv, rm⟩ busy_signal
      · rw [if_pos h2, if_pos h2, (sigEq_busy_iff _).mp h2]
      · rw [if_neg h2, if_neg h2]
        by_cases h3 : lv = rv
        · rw [if_pos (Or.inl h3), if_pos h3]
        · by_cases h4 : rm = 0
          · subst h4
            rw [if_pos (Or.inr rfl), if_neg h3, if_pos rfl]
            simp [Nat.or_zero]
          · have hcond : ¬ ((⟨lv, lm⟩ : NotifierSignal).value = (⟨rv, rm⟩ : NotifierSignal).value ∨
                (⟨rv, rm⟩ : NotifierSignal).mask = 0) := by
              rintro (h | h)
              · exact h3 h
              · exact h4 h
            rw [if_neg hcond, if_neg h3, if_neg h4]

/-- `C4` (counterexample) — same-word union is not precise for *every*
contents of the shared word: `busy` and `overderived` share the static word,
but under contents `OVERDERIVED_MASK` (the TRUE bit cleared, a contents the
initialized program never produces) `busy + overderived = busy` is inactive
while `overderived` is active. -/
theorem claim_C4_counterexample :
    busy_signal.value = overderived_signal.value ∧
    ¬ (activeAt (fun _ => OVERDERIVED_MASK) (busy_signal.plus overderived_signal) ↔
        activeAt (fun _ => OVERDERIVED_MASK) busy_signal ∨
        activeAt (fun _ => OVERDERIVED_MASK) overderived_signal) := by
  refine ⟨rfl, by decide⟩

/-- `C4` (amended) — same-word union is precise for every contents of the
shared word in which, should that word be the static one, the reserved TRUE
bit is set (as `static_initialize` establishes once and the core never
clears): if `a.word = b.word` then `(a + b).active ↔ a.active ∨ b.active`. -/
theorem claim_C4_sameword (load : SignalWordId → Nat) (w : SignalWordId)
    (a b : NotifierSignal) (ha : a.value = some w) (hb : b.value = some w)
    (hstat : w = staticWordId → load w &&& TRUE_MASK ≠ 0) :
    activeAt load (a.plus b) ↔ (activeAt load a ∨ activeAt load b) := by
  obtain ⟨va, ma⟩ := a
  obtain ⟨vb, mb⟩ := b
  simp only [NotifierSignal.value] at ha hb
  subst ha; subst hb
  show activeAt load (NotifierSignal.adds ⟨some w, ma⟩ ⟨some w, mb⟩) ↔ _
  rw [adds_eq_addsCore_of_value_eq]
  unfold addsCore
  by_cases h1 : sigEq ⟨some w, ma⟩ busy_signal
  · rw [if_pos h1]
    have hb1 := (sigEq_busy_iff _).mp h1
    have hw : w = staticWordId := by
      have hv := congrArg NotifierSignal.value hb1
      simpa [busy_signal] using hv
    have hm : ma = TRUE_MASK := by
      have hv := congrArg NotifierSignal.mask hb1
      simpa [busy_signal] using hv
    have hact : activeAt load ⟨some w, ma⟩ := by
      simpa [activeAt, sigLoad, hm] using hstat hw
    exact ⟨fun h => Or.inl h, fun _ => hact⟩
  · rw [if_neg h1]
    by_cases h2 : sigEq ⟨some w, mb⟩ busy_signal
    · rw [if_pos h2]
      have hb2 := (sigEq_busy_iff _).mp h2
      have hw : w = staticWordId := by
        have hv := congrArg NotifierSignal.value hb2
        simpa [busy_signal] using hv
      have hm : mb = TRUE_MASK := by
        have hv := congrArg NotifierSignal.mask hb2
        simpa [busy_signal] using hv
      have hact : activeAt load ⟨some w, mb⟩ := by
        simpa [activeAt, sigLoad, hm] using hstat hw
      exact ⟨fun h => Or.inr h, fun _ => hact⟩
    · rw [if_neg h2, if_pos (Or.inl rfl)]
      show load w &&& (ma ||| mb) ≠ 0 ↔ (load w &&& ma ≠ 0 ∨ load w &&& mb ≠ 0)
      rw [Nat.and_or_distrib_left]
      rw [ne_eq, nat_or_eq_zero_iff]
      tauto

/-- Witness for `claim_C4_sameword` at `a = busy`, `b = overderived`, with the
static word holding its initialized contents. -/
theorem claim_C4_sameword_witness :
    (busy_signal.value = some staticWordId ∧ overderived_signal.value = some staticWordId ∧
      (staticWordId = staticWordId → staticValue &&& TRUE_MASK ≠ 0)) ∧
    (activeAt (fun _ => staticValue) (busy_signal.plus overderived_signal) ↔
      (activeAt (fun _ => staticValue) busy_signal ∨
        activeAt (fun _ => staticValue) overderived_signal)) :=
  ⟨⟨rfl, rfl, by decide⟩,
    claim_C4_sameword (fun _ => staticValue) staticWordId busy_signal overderived_signal
      rfl rfl (by decide)⟩

/-- `C5` (counterexample) — different-word union does not always collapse:
the uninitialized signal is neither the busy nor the idle singleton and its
(null) word differs from a basic signal's word, yet combining yields that
basic signal, not overderived. -/
theorem claim_C5_counterexample :
    uninitSignal ≠ busy_signal ∧ uninitSignal ≠ idle_signal ∧
    (⟨some ⟨1⟩, 4⟩ : NotifierSignal) ≠ busy_signal ∧
    (⟨some ⟨1⟩, 4⟩ : NotifierSignal) ≠ idle_signal ∧
    uninitSignal.value ≠ (⟨some ⟨1⟩, 4⟩ : NotifierSignal).value ∧
    uninitSignal.plus ⟨some ⟨1⟩, 4⟩ ≠ overderived_signal := by
  refine ⟨by decide, by decide, by decide, by decide, by decide, by decide⟩

/-- `C5` (amended) — different-word union collapses to overderived provided
both signals have a non-zero mask (which excludes the idle and uninitialized
signals) and neither is busy. -/
theorem claim_C5_collapse (a b : NotifierSignal) (hv : a.value ≠ b.value)
    (hma : a.mask ≠ 0) (hmb : b.mask ≠ 0)
    (hab : a ≠ busy_signal) (hbb : b ≠ busy_signal) :
    a.plus b = overderived_signal := by
  show NotifierSignal.adds a b = _
  unfold NotifierSignal.adds
  rw [if_neg hma]
  unfold addsCore
  rw [if_neg (fun h => hab ((sigEq_busy_iff _).mp h))]
  rw [if_neg (fun h => hbb ((sigEq_busy_iff _).mp h))]
  have hcond : ¬ (a.value = b.value ∨ b.mask = 0) := by
    rintro (h | h)
    · exact hv h
    · exact hmb h
  rw [if_neg hcond]

/-- Witness for `claim_C5_collapse` at two basic signals on distinct words. -/
theorem claim_C5_collapse_witness :
    ((⟨some ⟨1⟩, 4⟩ : NotifierSignal).value ≠ (⟨some ⟨2⟩, 8⟩ : NotifierSignal).value ∧
      (⟨some ⟨1⟩, 4⟩ : NotifierSignal).mask ≠ 0 ∧ (⟨some ⟨2⟩, 8⟩ : NotifierSignal).mask ≠ 0 ∧
      (⟨some ⟨1⟩, 4⟩ : NotifierSignal) ≠ busy_signal ∧
      (⟨some ⟨2⟩, 8⟩ : NotifierSignal) ≠ busy_signal) ∧
    NotifierSignal.plus ⟨some ⟨1⟩, 4⟩ ⟨some ⟨2⟩, 8⟩ = overderived_signal :=
  ⟨⟨by decide, by decide, by decide, by decide, by decide⟩,
    claim_C5_collapse ⟨some ⟨1⟩, 4⟩ ⟨some ⟨2⟩, 8⟩
      (by decide) (by decide) (by decide) (by decide) (by decide)⟩

/-- `C10` — `unparse` loads through the word pointer unconditionally, so the
modelled triple exists exactly when the signal is initialized; on the
uninitialized sentinel the load is a null dereference (`none`). -/
theorem claim_C10_unparse (load : SignalWordId → Nat) (s : NotifierSignal) :
    (s.unparseTriple load).isSome = s.isInit := by
  obtain ⟨v, m⟩ := s
  cases v <;> rfl

/-- The `Notifier::SearchOp` policy constants. -/
inductive SearchOp where
  | SEARCH_STOP
  | SEARCH_CONTINUE
  | SEARCH_CONTINUE_WAKE
deriving DecidableEq

/-- A `Notifier`: its `NotifierSignal` and its search-op policy (the back
reference to the owning element plays no role in the verified operations). -/
structure Notifier where
  signal : NotifierSignal
  search_op : SearchOp
deriving DecidableEq

/-- Modelled from the spec: the router as a basic-signal allocator —
`new_basic_signal` either succeeds (code 0) or fails, writing the allocated
(word, single-bit mask) signal into its out-parameter. -/
structure Router where
  alloc_code : Int
  alloc_signal : NotifierSignal

/-- Modelled from the spec: `Router::new_notifier_signal(out signal)`. -/
def Router.new_notifier_signal (r : Router) : Int × NotifierSignal :=
  (r.alloc_code, r.alloc_signal)

/-- `Notifier::initialize`: if the signal is uninitialized, request a new
basic signal from the router; otherwise return 0.  (Named `initSig` here.) -/
def Notifier.initSig (n : Notifier) (r : Router) : Int × Notifier :=
  if n.signal.isInit = true then (0, n)
  else
    let p := r.new_notifier_signal
    (p.1, { n with signal := p.2 })

/-- `C8` — `Notifier::initialize` is idempotent: with an initialized signal it
returns 0 and leaves the notifier unchanged; only with an uninitialized signal
does it take the router's allocation and result code, and (when allocation
yields an initialized signal) a second call is then a no-op returning 0. -/
theorem claim_C8_initialize_idempotent (n : Notifier) (r : Router)
    (halloc : r.alloc_signal.isInit = true) :
    n.initSig r = (if n.signal.isInit = true then (0, n)
                   else (r.alloc_code, { n with signal := r.alloc_signal })) ∧
    (n.initSig r).2.initSig r = (0, (n.initSig r).2) := by
  by_cases h : n.signal.isInit = true
  · have e : n.initSig r = (0, n) := by
      unfold Notifier.initSig
      rw [if_pos h]
    refine ⟨by rw [e, if_pos h], ?_⟩
    rw [e]
    exact e
  · have e : n.initSig r = (r.alloc_code, { n with signal := r.alloc_signal }) := by
      unfold Notifier.initSig Router.new_notifier_signal
      rw [if_neg h]
    refine ⟨by rw [e, if_neg h], ?_⟩
    rw [e]
    show Notifier.initSig { n with signal := r.alloc_signal } r = _
    unfold Notifier.initSig
    rw [if_pos halloc]

/-- Witness for `claim_C8_initialize_idempotent` on an uninitialized notifier
and a successfully allocating router. -/
theorem claim_C8_witness :
    ((Router.mk 0 ⟨some ⟨1⟩, 4⟩).alloc_signal.isInit = true) ∧
    (Notifier.mk uninitSignal SearchOp.SEARCH_STOP).initSig (Router.mk 0 ⟨some ⟨1⟩, 4⟩) =
      (if (Notifier.mk uninitSignal SearchOp.SEARCH_STOP).signal.isInit = true
       then (0, Notifier.mk uninitSignal SearchOp.SEARCH_STOP)
       else ((Router.mk 0 ⟨some ⟨1⟩, 4⟩).alloc_code,
         { Notifier.mk uninitSignal SearchOp.SEARCH_STOP with
             signal := (Router.mk 0 ⟨some ⟨1⟩, 4⟩).alloc_signal })) ∧
    ((Notifier.mk uninitSignal SearchOp.SEARCH_STOP).initSig
        (Router.mk 0 ⟨some ⟨1⟩, 4⟩)).2.initSig (Router.mk 0 ⟨some ⟨1⟩, 4⟩) =
      (0, ((Notifier.mk uninitSignal SearchOp.SEARCH_STOP).initSig
        (Router.mk 0 ⟨some ⟨1⟩, 4⟩)).2) :=
  ⟨rfl, claim_C8_initialize_idempotent (Notifier.mk uninitSignal SearchOp.SEARCH_STOP)
    (Router.mk 0 ⟨some ⟨1⟩, 4⟩) rfl⟩

/-! ### The ActiveNotifier listener list

Listener entries are pointers (`void *what`); we model a non-null pointer as a
`Nat` and a `task_or_signal_t` cell as an `Option Nat` (`none` = null
sentinel).  `listener1` is the inline single-task slot `_listener1`,
`listeners` the heap array `_listeners` (`none` = no array allocated). -/

/-- The `ActiveNotifier` listener state: `_listener1` and `_listeners`. -/
structure ANState where
  listener1 : Option Nat
  listeners : Option (List (Option Nat))
deriving DecidableEq

/-- The copy loop of `ActiveNotifier::listener_change`: walk the old array
until two null sentinels were passed (`x` counts them); copy non-null entries,
skipping `what` on removal and de-duplicating on add; insert `what` just
before the sentinel of partition `wh` when still pending. -/
def copyLoop (what wh : Nat) : Nat → Bool → List (Option Nat) → List (Option Nat)
  | _, _, [] => []
  | x, add, e :: rest =>
    if 2 ≤ x then []
    else
      match e with
      | some v =>
        if add = true ∨ ¬ v = what then
          some v :: copyLoop what wh x (if v = what then false else add) rest
        else
          copyLoop what wh x add rest
      | none =>
        (if add = true ∧ wh = x then [some what] else []) ++
          none :: copyLoop what wh (x + 1) add rest

/-- `ActiveNotifier::listener_change(what, where, add)`.  The in-memory
allocation always succeeds in the model (the out-of-memory early return leaves
the state untouched and is not reachable here); the result code is therefore
omitted.  The fast path stores a first task inline; the general path copies
through `copyLoop` and then re-normalizes (empty → fully empty state, single
task → inline slot, otherwise adopt the new array). -/
def listener_change (s : ANState) (what : Nat) (wh : Nat) (add : Bool) : ANState :=
  if s.listener1 = none ∧ s.listeners = none ∧ wh = 0 ∧ add = true then
    ⟨some what, none⟩
  else
    let old : List (Option Nat) :=
      match s.listeners with
      | some l => l
      | none => [s.listener1, none, none]
    let ntos := copyLoop what wh 0 add old
    if ntos.getD 0 none = none ∧ ntos.getD 1 none = none then
      ⟨none, none⟩
    else if ntos.getD 0 none ≠ none ∧ ntos.getD 1 none = none ∧ ntos.getD 2 none = none then
      ⟨ntos.getD 0 none, none⟩
    else
      ⟨none, some ntos⟩

/-- `ActiveNotifier::add_listener(task)` = `listener_change(task, 0, true)`. -/
def add_listener (s : ANState) (task : Nat) : ANState :=
  listener_change s task 0 true

/-- `ActiveNotifier::remove_listener(task)` = `listener_change(task, 0, false)`. -/
def remove_listener (s : ANState) (task : Nat) : ANState :=
  listener_change s task 0 false

/-- `ActiveNotifier::add_dependent_signal(sig)` = `listener_change(sig, 1, true)`. -/
def add_dependent_signal (s : ANState) (sig : Nat) : ANState :=
  listener_change s sig 1 true

/-- `ActiveNotifier::listeners(Vector&)`: the inline task if present, else the
task entries of the heap array up to the first null sentinel. -/
def listenersOf (s : ANState) : List Nat :=
  match s.listener1, s.listeners with
  | some t, _ => [t]
  | none, some l => (l.takeWhile fun e => e.isSome).filterMap id
  | none, none => []

/-- Abstract single-partition scan mirroring the copy loop on one partition:
returns the surviving entries and the updated pending-insertion flag. -/
def scanPart (what : Nat) : Bool → List Nat → List Nat × Bool
  | add, [] => ([], add)
  | add, v :: rest =>
    if add = true ∨ ¬ v = what then
      let p := scanPart what (if v = what then false else add) rest
      (v :: p.1, p.2)
    else
      scanPart what add rest

/-- The abstract effect of `listener_change` on the two partitions. -/
def newLists (what wh : Nat) (add : Bool) (ts ss : List Nat) : List Nat × List Nat :=
  let p1 := scanPart what add ts
  let ts2 := p1.1 ++ (if p1.2 = true ∧ wh = 0 then [what] else [])
  let p2 := scanPart what p1.2 ss
  let ss2 := p2.1 ++ (if p2.2 = true ∧ wh = 1 then [what] else [])
  (ts2, ss2)

/-- The heap-array layout: tasks, null sentinel, dependent signals, null
sentinel. -/
def listsToArray (ts ss : List Nat) : List (Option Nat) :=
  ts.map some ++ none :: (ss.map some ++ [none])

/-- The canonical state representing the two partitions: fully empty, a single
task inline, or the heap array. -/
def stateOf : List Nat × List Nat → ANState
  | ([], []) => ⟨none, none⟩
  | ([t], []) => ⟨some t, none⟩
  | (ts, ss) => ⟨none, some (listsToArray ts ss)⟩

/-- The listener-list representation invariant: the state is fully empty, a
single inline task, or the canonical heap array of the two partitions (which
is only used when it holds at least two tasks or at least one dependent
signal). -/
inductive WF : ANState → List Nat → List Nat → Prop where
  | empty : WF ⟨none, none⟩ [] []
  | single (t : Nat) : WF ⟨some t, none⟩ [t] []
  | array (ts ss : List Nat) (h : 2 ≤ ts.length ∨ ss ≠ []) :
      WF ⟨none, some (listsToArray ts ss)⟩ ts ss

/-- A listener-list operation: add/remove a task listener, or add a dependent
signal. -/
inductive LOp where
  | addL (t : Nat)
  | removeL (t : Nat)
  | addD (p : Nat)
deriving DecidableEq

/-- The pointer argument of an operation. -/
def LOp.arg : LOp → Nat
  | .addL t => t
  | .removeL t => t
  | .addD p => p

/-- Run one listener-list operation. -/
def stepOp : LOp → ANState → ANState
  | .addL t, s => add_listener s t
  | .removeL t, s => remove_listener s t
  | .addD p, s => add_dependent_signal s p

/-- Run a sequence of listener-list operations from the freshly constructed
(empty) ActiveNotifier. -/
def runOps (ops : List LOp) : ANState :=
  ops.foldl (fun s op => stepOp op s) ⟨none, none⟩

example : add_listener ⟨none, none⟩ 7 = ⟨some 7, none⟩ := by decide
example : remove_listener (add_listener ⟨none, none⟩ 7) 7 = ⟨none, none⟩ := by decide
example : add_listener (add_listener ⟨none, none⟩ 7) 8 =
    ⟨none, some [some 7, some 8, none, none]⟩ := by decide
example : add_dependent_signal (add_listener ⟨none, none⟩ 7) 9 =
    ⟨none, some [some 7, none, some 9, none]⟩ := by decide
example : add_listener (add_listener ⟨none, none⟩ 7) 7 = ⟨some 7, none⟩ := by decide
example : remove_listener (add_dependent_signal ⟨none, none⟩ 9) 5 =
    ⟨none, some [none, some 9, none]⟩ := by decide
example : runOps [LOp.addL 3, LOp.addD 4, LOp.removeL 3] = ⟨none, some [none, some 4, none]⟩ := by
  decide

lemma copyLoop_two (what wh : Nat) (add : Bool) (l : List (Option Nat)) :
    copyLoop what wh 2 add l = [] := by
  cases l with
  | nil => rfl
  | cons e rest => simp [copyLoop]

lemma copyLoop_sig (what wh : Nat) (ss : List Nat) (add : Bool) (junk : List (Option Nat)) :
    copyLoop what wh 1 add (ss.map some ++ none :: junk) =
      (scanPart what add ss).1.map some ++
        (if (scanPart what add ss).2 = true ∧ wh = 1 then [some what] else []) ++ [none] := by
  induction ss generalizing add with
  | nil =>
    simp [copyLoop, scanPart, copyLoop_two]
  | cons v rest ih =>
    by_cases hv : v = what
    · subst hv
      by_cases ha : add = true
      · subst ha
        simp [copyLoop, scanPart, ih]
      · have ha' : add = false := by
          cases add
          · rfl
          · exact absurd rfl ha
        subst ha'
        simp [copyLoop, scanPart, ih]
    · simp [copyLoop, scanPart, hv, ih]

lemma copyLoop_main (what wh : Nat) (ts ss : List Nat) (add : Bool)
    (junk : List (Option Nat)) :
    copyLoop what wh 0 add (ts.map some ++ none :: (ss.map some ++ none :: junk)) =
      listsToArray (newLists what wh add ts ss).1 (newLists what wh add ts ss).2 := by
  induction ts generalizing add with
  | nil =>
    simp only [List.map_nil, List.nil_append]
    have e1 : copyLoop what wh 0 add (none :: (ss.map some ++ none :: junk)) =
        (if add = true ∧ wh = 0 then [some what] else []) ++
          none :: copyLoop what wh 1 add (ss.map some ++ none :: junk) := by
      simp [copyLoop]
    rw [e1, copyLoop_sig]
    simp only [newLists, listsToArray, scanPart]
    simp [apply_ite (List.map some)]
  | cons v rest ih =>
    by_cases hv : v = what
    · cases add with
      | true =>
        simp only [List.map_cons, List.cons_append]
        have e1 : copyLoop what wh 0 true
            (some v :: (rest.map some ++ none :: (ss.map some ++ none :: junk))) =
            some v :: copyLoop what wh 0 false
              (rest.map some ++ none :: (ss.map some ++ none :: junk)) := by
          simp [copyLoop, hv]
        rw [e1, ih]
        simp [newLists, listsToArray, scanPart, hv]
      | false =>
        simp only [List.map_cons, List.cons_append]
        have e1 : copyLoop what wh 0 false
            (some v :: (rest.map some ++ none :: (ss.map some ++ none :: junk))) =
            copyLoop what wh 0 false
              (rest.map some ++ none :: (ss.map some ++ none :: junk)) := by
          simp [copyLoop, hv]
        rw [e1, ih]
        simp [newLists, listsToArray, scanPart, hv]
    · simp only [List.map_cons, List.cons_append]
      have e1 : copyLoop what wh 0 add
          (some v :: (rest.map some ++ none :: (ss.map some ++ none :: junk))) =
          some v :: copyLoop what wh 0 add
            (rest.map some ++ none :: (ss.map some ++ none :: junk)) := by
        simp [copyLoop, hv]
      rw [e1, ih]
      simp [newLists, listsToArray, scanPart, hv]

lemma post_listsToArray (ts ss : List Nat) :
    (let ntos := listsToArray ts ss
     if ntos.getD 0 none = none ∧ ntos.getD 1 none = none then (⟨none, none⟩ : ANState)
     else if ntos.getD 0 none ≠ none ∧ ntos.getD 1 none = none ∧ ntos.getD 2 none = none then
       ⟨ntos.getD 0 none, none⟩
     else ⟨none, some ntos⟩) = stateOf (ts, ss) := by
  match ts, ss with
  | [], [] => rfl
  | [], s :: ss' => simp [listsToArray, stateOf]
  | [t], [] => simp [listsToArray, stateOf]
  | [t], s :: ss' => simp [listsToArray, stateOf]
  | t1 :: t2 :: ts', [] => simp [listsToArray, stateOf]
  | t1 :: t2 :: ts', s :: ss' => simp [listsToArray, stateOf]

lemma listener_change_eq (s : ANState) (ts ss : List Nat) (hwf : WF s ts ss)
    (what wh : Nat) (add : Bool) :
    listener_change s what wh add = stateOf (newLists what wh add ts ss) := by
  cases hwf with
  | empty =>
    by_cases hfast : wh = 0 ∧ add = true
    · obtain ⟨hw, ha⟩ := hfast
      subst hw
      subst ha
      have e1 : listener_change ⟨none, none⟩ what 0 true = ⟨some what, none⟩ := by
        unfold listener_change
        rw [if_pos ⟨rfl, rfl, rfl, rfl⟩]
      rw [e1]
      simp [newLists, scanPart, stateOf]
    · have e1 : listener_change ⟨none, none⟩ what wh add =
          (let ntos := copyLoop what wh 0 add [none, none, none]
           if ntos.getD 0 none = none ∧ ntos.getD 1 none = none then (⟨none, none⟩ : ANState)
           else if ntos.getD 0 none ≠ none ∧ ntos.getD 1 none = none ∧
               ntos.getD 2 none = none then ⟨ntos.getD 0 none, none⟩
           else ⟨none, some ntos⟩) := by
        unfold listener_change
        rw [if_neg (by rintro ⟨-, -, h1, h2⟩; exact hfast ⟨h1, h2⟩)]
      rw [e1]
      have e2 : ([none, none, none] : List (Option Nat)) =
          ([] : List Nat).map some ++ none :: (([] : List Nat).map some ++ none :: [none]) := by
        rfl
      rw [e2, copyLoop_main, post_listsToArray]
  | single t =>
    have e1 : listener_change ⟨some t, none⟩ what wh add =
        (let ntos := copyLoop what wh 0 add [some t, none, none]
         if ntos.getD 0 none = none ∧ ntos.getD 1 none = none then (⟨none, none⟩ : ANState)
         else if ntos.getD 0 none ≠ none ∧ ntos.getD 1 none = none ∧
             ntos.getD 2 none = none then ⟨ntos.getD 0 none, none⟩
         else ⟨none, some ntos⟩) := by
      unfold listener_change
      rw [if_neg (by rintro ⟨h1, -, -, -⟩; exact Option.some_ne_none t h1)]
    rw [e1]
    have e2 : ([some t, none, none] : List (Option Nat)) =
        [t].map some ++ none :: (([] : List Nat).map some ++ none :: []) := by
      rfl
    rw [e2, copyLoop_main, post_listsToArray]
  | array ts ss h =>
    have e1 : listener_change ⟨none, some (listsToArray ts ss)⟩ what wh add =
        (let ntos := copyLoop what wh 0 add (listsToArray ts ss)
         if ntos.getD 0 none = none ∧ ntos.getD 1 none = none then (⟨none, none⟩ : ANState)
         else if ntos.getD 0 none ≠ none ∧ ntos.getD 1 none = none ∧
             ntos.getD 2 none = none then ⟨ntos.getD 0 none, none⟩
         else ⟨none, some ntos⟩) := by
      unfold listener_change
      rw [if_neg (by rintro ⟨-, h1, -, -⟩; exact Option.some_ne_none _ h1)]
    rw [e1]
    have e2 : listsToArray ts ss =
        ts.map some ++ none :: (ss.map some ++ none :: []) := by
      rfl
    rw [e2, copyLoop_main, post_listsToArray]

lemma scanPart_not_mem (what : Nat) (add : Bool) (l : List Nat) (h : what ∉ l) :
    scanPart what add l = (l, add) := by
  induction l generalizing add with
  | nil => rfl
  | cons v rest ih =>
    have hv : ¬ v = what := by
      rintro rfl
      exact h (List.mem_cons_self _ _)
    have hr : what ∉ rest := fun hm => h (List.mem_cons_of_mem _ hm)
    simp [scanPart, hv, ih _ hr]

lemma scanPart_false (what : Nat) (l : List Nat) :
    scanPart what false l = (l.filter (· ≠ what), false) := by
  induction l with
  | nil => rfl
  | cons v rest ih =>
    by_cases hv : v = what
    · subst hv
      simp [scanPart, ih]
    · simp [scanPart, hv, ih]

lemma scanPart_flag_true (what : Nat) (add : Bool) (l : List Nat)
    (h : (scanPart what add l).2 = true) : add = true ∧ what ∉ l := by
  induction l generalizing add with
  | nil => exact ⟨h, List.not_mem_nil what⟩
  | cons v rest ih =>
    by_cases hv : v = what
    · subst hv
      cases add with
      | true =>
        simp only [scanPart, if_pos (Or.inl rfl), if_pos rfl] at h
        exact absurd (ih _ h).1 (by simp)
      | false =>
        simp only [scanPart] at h
        rw [if_neg (by simp)] at h
        exact absurd (ih _ h).1 (by simp)
    · rw [scanPart] at h
      rw [if_pos (Or.inr hv)] at h
      simp only [if_neg hv] at h
      obtain ⟨ha, hm⟩ := ih _ h
      refine ⟨ha, ?_⟩
      intro hmem
      rcases List.mem_cons.mp hmem with heq | hmem'
      · exact hv heq.symm
      · exact hm hmem'

lemma scanPart_mem_nodup (what : Nat) (l : List Nat) (hd : l.Nodup) (hm : what ∈ l) :
    scanPart what true l = (l, false) := by
  induction l with
  | nil => exact absurd hm (List.not_mem_nil what)
  | cons v rest ih =>
    have hd1 : v ∉ rest := (List.nodup_cons.mp hd).1
    have hd2 : rest.Nodup := (List.nodup_cons.mp hd).2
    by_cases hv : v = what
    · subst hv
      rw [scanPart]
      rw [if_pos (Or.inl rfl)]
      rw [if_pos rfl]
      rw [scanPart_false]
      have : rest.filter (· ≠ v) = rest := by
        apply List.filter_eq_self.mpr
        intro a ha
        simp only [decide_eq_true_eq]
        rintro rfl
        exact hd1 ha
      rw [this]
    · have hm' : what ∈ rest := by
        rcases List.mem_cons.mp hm with h | h
        · exact absurd h.symm hv
        · exact h
      rw [scanPart]
      rw [if_pos (Or.inl rfl)]
      rw [if_neg hv, ih hd2 hm']

lemma scanPart_sublist (what : Nat) (add : Bool) (l : List Nat) :
    (scanPart what add l).1.Sublist l := by
  induction l generalizing add with
  | nil => exact List.Sublist.refl []
  | cons v rest ih =>
    rw [scanPart]
    by_cases hc : add = true ∨ ¬ v = what
    · rw [if_pos hc]
      exact List.Sublist.cons₂ v (ih _)
    · rw [if_neg hc]
      exact List.Sublist.cons v (ih _)

lemma scanPart_filter (what : Nat) (add : Bool) (l : List Nat) :
    (scanPart what add l).1.filter (· ≠ what) = l.filter (· ≠ what) := by
  induction l generalizing add with
  | nil => rfl
  | cons v rest ih =>
    by_cases hv : v = what
    · subst hv
      cases add with
      | true =>
        have e : scanPart v true (v :: rest) =
            (v :: (scanPart v false rest).1, (scanPart v false rest).2) := by
          simp [scanPart]
        rw [e, List.filter_cons_of_neg (by simp), ih false,
          List.filter_cons_of_neg (by simp)]
      | false =>
        have e : scanPart v false (v :: rest) = scanPart v false rest := by
          simp [scanPart]
        rw [e, ih false, List.filter_cons_of_neg (by simp)]
    · have e : scanPart what add (v :: rest) =
          (v :: (scanPart what add rest).1, (scanPart what add rest).2) := by
        simp [scanPart, hv]
      rw [e, List.filter_cons_of_pos (by simp [hv]), ih,
        List.filter_cons_of_pos (by simp [hv])]

lemma stateOf_WF (p : List Nat × List Nat) : WF (stateOf p) p.1 p.2 := by
  obtain ⟨ts, ss⟩ := p
  match ts, ss with
  | [], [] => exact WF.empty
  | [t], [] => exact WF.single t
  | [], s :: ss' =>
    exact WF.array [] (s :: ss') (Or.inr (List.cons_ne_nil s ss'))
  | [t], s :: ss' =>
    exact WF.array [t] (s :: ss') (Or.inr (List.cons_ne_nil s ss'))
  | t1 :: t2 :: ts', ss =>
    exact WF.array (t1 :: t2 :: ts') ss (Or.inl (by simp))

lemma WF_stateOf (s : ANState) (ts ss : List Nat) (hwf : WF s ts ss) :
    stateOf (ts, ss) = s := by
  cases hwf with
  | empty => rfl
  | single t => rfl
  | array ts ss h =>
    match ts, ss, h with
    | [], [], h => simp at h
    | [t], [], h => simp at h
    | [], s :: ss', _ => rfl
    | [t], s :: ss', _ => rfl
    | t1 :: t2 :: ts', ss, _ => rfl

lemma newLists_fst (what wh : Nat) (add : Bool) (ts ss : List Nat) :
    (newLists what wh add ts ss).1 =
      (scanPart what add ts).1 ++
        (if (scanPart what add ts).2 = true ∧ wh = 0 then [what] else []) := by
  rfl

lemma newLists_snd (what wh : Nat) (add : Bool) (ts ss : List Nat) :
    (newLists what wh add ts ss).2 =
      (scanPart what (scanPart what add ts).2 ss).1 ++
        (if (scanPart what (scanPart what add ts).2 ss).2 = true ∧ wh = 1
         then [what] else []) := by
  rfl

lemma newLists_wf (what wh : Nat) (add : Bool) (ts ss : List Nat)
    (hts : ts.Nodup) (hss : ss.Nodup) :
    (newLists what wh add ts ss).1.Nodup ∧ (newLists what wh add ts ss).2.Nodup := by
  rw [newLists_fst, newLists_snd]
  constructor
  · by_cases h0 : (scanPart what add ts).2 = true ∧ wh = 0
    · rw [if_pos h0]
      have hnm := (scanPart_flag_true what add ts h0.1).2
      rw [scanPart_not_mem what add ts hnm]
      refine List.Nodup.append hts (List.nodup_singleton what) ?_
      intro a ha hb
      rw [List.mem_singleton] at hb
      subst hb
      exact hnm ha
    · rw [if_neg h0, List.append_nil]
      exact List.Nodup.sublist (scanPart_sublist what add ts) hts
  · by_cases h1 : (scanPart what (scanPart what add ts).2 ss).2 = true ∧ wh = 1
    · rw [if_pos h1]
      have hflag := scanPart_flag_true what _ ss h1.1
      rw [scanPart_not_mem what _ ss hflag.2]
      refine List.Nodup.append hss (List.nodup_singleton what) ?_
      intro a ha hb
      rw [List.mem_singleton] at hb
      subst hb
      exact hflag.2 ha
    · rw [if_neg h1, List.append_nil]
      exact List.Nodup.sublist (scanPart_sublist what _ ss) hss

lemma newLists_filter (what wh : Nat) (add : Bool) (ts ss : List Nat) :
    (newLists what wh add ts ss).1.filter (· ≠ what) = ts.filter (· ≠ what) ∧
    (newLists what wh add ts ss).2.filter (· ≠ what) = ss.filter (· ≠ what) := by
  rw [newLists_fst, newLists_snd]
  constructor
  · rw [List.filter_append]
    have e1 : (if (scanPart what add ts).2 = true ∧ wh = 0 then [what] else []).filter
        (· ≠ what) = [] := by
      by_cases h0 : (scanPart what add ts).2 = true ∧ wh = 0
      · rw [if_pos h0]
        simp
      · rw [if_neg h0]
        rfl
    rw [e1, List.append_nil]
    exact scanPart_filter what add ts
  · rw [List.filter_append]
    have e1 : (if (scanPart what (scanPart what add ts).2 ss).2 = true ∧ wh = 1 then [what]
        else []).filter (· ≠ what) = [] := by
      by_cases h0 : (scanPart what (scanPart what add ts).2 ss).2 = true ∧ wh = 1
      · rw [if_pos h0]
        simp
      · rw [if_neg h0]
        rfl
    rw [e1, List.append_nil]
    exact scanPart_filter what _ ss

lemma takeWhile_map_some (ts : List Nat) (rest : List (Option Nat)) :
    ((ts.map some ++ none :: rest).takeWhile fun e => e.isSome) = ts.map some := by
  induction ts with
  | nil => rfl
  | cons t ts' ih => simp [List.takeWhile_cons, ih]

lemma filterMap_id_map_some (ts : List Nat) :
    (ts.map some).filterMap id = ts := by
  induction ts with
  | nil => rfl
  | cons t ts' ih => simp [List.filterMap_cons, ih]

lemma listenersOf_WF (s : ANState) (ts ss : List Nat) (hwf : WF s ts ss) :
    listenersOf s = ts := by
  cases hwf with
  | empty => rfl
  | single t => rfl
  | array ts ss h =>
    show listenersOf ⟨none, some (listsToArray ts ss)⟩ = ts
    have e : listenersOf ⟨none, some (listsToArray ts ss)⟩ =
        ((listsToArray ts ss).takeWhile fun e => e.isSome).filterMap id := rfl
    rw [e]
    unfold listsToArray
    rw [takeWhile_map_some, filterMap_id_map_some]

lemma filter_ne_of_not_mem (l : List Nat) (t : Nat) (h : t ∉ l) :
    l.filter (· ≠ t) = l := by
  apply List.filter_eq_self.mpr
  intro a ha
  simp only [decide_eq_true_eq]
  rintro rfl
  exact h ha

lemma newLists_add_mem (t : Nat) (ts ss : List Nat) (hts : ts.Nodup) (hmem : t ∈ ts)
    (hns : t ∉ ss) : newLists t 0 true ts ss = (ts, ss) := by
  rw [Prod.ext_iff]
  constructor
  · simp [newLists_fst, scanPart_mem_nodup t ts hts hmem]
  · simp only [newLists_snd, scanPart_mem_nodup t ts hts hmem, scanPart_false]
    simp only [Bool.false_eq_true, false_and, if_false, List.append_nil]
    exact filter_ne_of_not_mem ss t hns

lemma newLists_add_not_mem (t : Nat) (ts ss : List Nat) (hmt : t ∉ ts) (hns : t ∉ ss) :
    newLists t 0 true ts ss = (ts ++ [t], ss) := by
  rw [Prod.ext_iff]
  constructor
  · simp [newLists_fst, scanPart_not_mem t true ts hmt]
  · simp [newLists_snd, scanPart_not_mem t true ts hmt, scanPart_not_mem t true ss hns]

lemma newLists_remove (t : Nat) (ts ss : List Nat) (hns : t ∉ ss) :
    newLists t 0 false ts ss = (ts.filter (· ≠ t), ss) := by
  rw [Prod.ext_iff]
  constructor
  · simp [newLists_fst, scanPart_false]
  · simp only [newLists_snd, scanPart_false]
    simp only [Bool.false_eq_true, false_and, if_false, List.append_nil]
    exact filter_ne_of_not_mem ss t hns

/-- `C7` — Listener-add idempotence and removal: on any well-formed listener
state, adding task `t` twice leaves exactly one registration of `t`; a
subsequent remove leaves none; removing a never-added task is a silent no-op;
and add-then-remove on the empty notifier returns to the fully empty state
with no heap array retained. -/
theorem claim_C7_listener_idempotence (s : ANState) (ts ss : List Nat) (t : Nat)
    (hwf : WF s ts ss) (hts : ts.Nodup) (hss : ss.Nodup) (hns : t ∉ ss) :
    (listenersOf (add_listener (add_listener s t) t)).count t = 1 ∧
    (listenersOf (remove_listener (add_listener (add_listener s t) t) t)).count t = 0 ∧
    (t ∉ ts → remove_listener s t = s) ∧
    remove_listener (add_listener ⟨none, none⟩ t) t = ⟨none, none⟩ := by
  obtain ⟨ts1, he1, hts1, hmem1⟩ :
      ∃ ts1, add_listener s t = stateOf (ts1, ss) ∧ ts1.Nodup ∧ t ∈ ts1 := by
    by_cases hmem : t ∈ ts
    · refine ⟨ts, ?_, hts, hmem⟩
      unfold add_listener
      rw [listener_change_eq s ts ss hwf, newLists_add_mem t ts ss hts hmem hns]
    · refine ⟨ts ++ [t], ?_, ?_, by simp⟩
      · unfold add_listener
        rw [listener_change_eq s ts ss hwf, newLists_add_not_mem t ts ss hmem hns]
      · refine List.Nodup.append hts (List.nodup_singleton t) ?_
        intro a ha hb
        rw [List.mem_singleton] at hb
        subst hb
        exact hmem ha
  have hwf1 : WF (add_listener s t) ts1 ss := by
    rw [he1]
    exact stateOf_WF (ts1, ss)
  have e2 : add_listener (add_listener s t) t = stateOf (ts1, ss) := by
    have h := listener_change_eq (add_listener s t) ts1 ss hwf1 t 0 true
    rw [newLists_add_mem t ts1 ss hts1 hmem1 hns] at h
    exact h
  have hwf2 : WF (add_listener (add_listener s t) t) ts1 ss := by
    rw [e2]
    exact stateOf_WF (ts1, ss)
  have hl2 : listenersOf (add_listener (add_listener s t) t) = ts1 :=
    listenersOf_WF _ _ _ hwf2
  refine ⟨?_, ?_, ?_, ?_⟩
  · rw [hl2]
    exact List.count_eq_one_of_mem hts1 hmem1
  · have e3 : remove_listener (add_listener (add_listener s t) t) t =
        stateOf (ts1.filter (· ≠ t), ss) := by
      unfold remove_listener
      rw [listener_change_eq _ ts1 ss hwf2, newLists_remove t ts1 ss hns]
    rw [e3, listenersOf_WF _ _ _ (stateOf_WF (ts1.filter (· ≠ t), ss))]
    rw [List.count_eq_zero]
    intro hmem
    have := (List.mem_filter.mp hmem).2
    simp at this
  · intro hnm
    have e4 : remove_listener s t = stateOf (ts.filter (· ≠ t), ss) := by
      unfold remove_listener
      rw [listener_change_eq s ts ss hwf, newLists_remove t ts ss hns]
    rw [e4, filter_ne_of_not_mem ts t hnm, WF_stateOf s ts ss hwf]
  · have ha : add_listener ⟨none, none⟩ t = ⟨some t, none⟩ := by
      unfold add_listener listener_change
      rw [if_pos ⟨rfl, rfl, rfl, rfl⟩]
    rw [ha]
    have e5 : remove_listener ⟨some t, none⟩ t = stateOf ([t].filter (· ≠ t), []) := by
      unfold remove_listener
      rw [listener_change_eq _ [t] [] (WF.single t), newLists_remove t [t] [] (List.not_mem_nil t)]
    rw [e5]
    have e6 : [t].filter (· ≠ t) = [] := by simp
    rw [e6]
    rfl

/-- Witness for `claim_C7_listener_idempotence` on the empty notifier and
task 5. -/
theorem claim_C7_witness :
    (WF ⟨none, none⟩ [] [] ∧ ([] : List Nat).Nodup ∧ (5 : Nat) ∉ ([] : List Nat)) ∧
    ((listenersOf (add_listener (add_listener ⟨none, none⟩ 5) 5)).count 5 = 1 ∧
      (listenersOf (remove_listener (add_listener (add_listener ⟨none, none⟩ 5) 5) 5)).count 5
        = 0 ∧
      ((5 : Nat) ∉ ([] : List Nat) → remove_listener ⟨none, none⟩ 5 = ⟨none, none⟩) ∧
      remove_listener (add_listener ⟨none, none⟩ 5) 5 = ⟨none, none⟩) :=
  ⟨⟨WF.empty, List.nodup_nil, by simp⟩,
    claim_C7_listener_idempotence ⟨none, none⟩ [] [] 5 WF.empty List.nodup_nil
      List.nodup_nil (by simp)⟩

lemma lc_wf_all (s : ANState) (ts ss : List Nat) (what wh : Nat) (add : Bool)
    (hwf : WF s ts ss) (hts : ts.Nodup) (hss : ss.Nodup) :
    WF (listener_change s what wh add)
      (newLists what wh add ts ss).1 (newLists what wh add ts ss).2 ∧
    (newLists what wh add ts ss).1.Nodup ∧ (newLists what wh add ts ss).2.Nodup ∧
    (newLists what wh add ts ss).1.filter (· ≠ what) = ts.filter (· ≠ what) ∧
    (newLists what wh add ts ss).2.filter (· ≠ what) = ss.filter (· ≠ what) := by
  refine ⟨?_, (newLists_wf what wh add ts ss hts hss).1,
    (newLists_wf what wh add ts ss hts hss).2,
    (newLists_filter what wh add ts ss).1, (newLists_filter what wh add ts ss).2⟩
  rw [listener_change_eq s ts ss hwf what wh add]
  exact stateOf_WF (newLists what wh add ts ss)

lemma runOps_wf (ops : List LOp) :
    ∃ ts ss, WF (runOps ops) ts ss ∧ ts.Nodup ∧ ss.Nodup := by
  suffices h : ∀ (s : ANState) (ts ss : List Nat), WF s ts ss → ts.Nodup → ss.Nodup →
      ∃ ts' ss', WF (ops.foldl (fun s op => stepOp op s) s) ts' ss' ∧ ts'.Nodup ∧ ss'.Nodup by
    exact h ⟨none, none⟩ [] [] WF.empty List.nodup_nil List.nodup_nil
  induction ops with
  | nil =>
    intro s ts ss h1 h2 h3
    exact ⟨ts, ss, h1, h2, h3⟩
  | cons op rest ih =>
    intro s ts ss h1 h2 h3
    rw [List.foldl_cons]
    cases op with
    | addL t =>
      have h := lc_wf_all s ts ss t 0 true h1 h2 h3
      exact ih _ _ _ h.1 h.2.1 h.2.2.1
    | removeL t =>
      have h := lc_wf_all s ts ss t 0 false h1 h2 h3
      exact ih _ _ _ h.1 h.2.1 h.2.2.1
    | addD p =>
      have h := lc_wf_all s ts ss p 1 true h1 h2 h3
      exact ih _ _ _ h.1 h.2.1 h.2.2.1

/-- `C9` — Listener-list representation invariant: after every sequence of
`add_listener` / `remove_listener` / `add_dependent_signal` calls starting
from the freshly constructed notifier, the state is exactly one of: fully
empty; a single task in the inline slot (never a dependent signal); or the
heap array laid out as tasks, null sentinel, dependent signals, null sentinel
(`WF`).  One more operation preserves the shape, and every registered entry
other than the operation's argument is preserved in its partition and
relative order. -/
theorem claim_C9_representation (ops : List LOp) (op : LOp) :
    ∃ ts ss ts' ss',
      WF (runOps ops) ts ss ∧ ts.Nodup ∧ ss.Nodup ∧
      WF (stepOp op (runOps ops)) ts' ss' ∧ ts'.Nodup ∧ ss'.Nodup ∧
      ts'.filter (· ≠ op.arg) = ts.filter (· ≠ op.arg) ∧
      ss'.filter (· ≠ op.arg) = ss.filter (· ≠ op.arg) := by
  obtain ⟨ts, ss, hwf, hn1, hn2⟩ := runOps_wf ops
  cases op with
  | addL t =>
    have h := lc_wf_all (runOps ops) ts ss t 0 true hwf hn1 hn2
    exact ⟨ts, ss, _, _, hwf, hn1, hn2, h.1, h.2.1, h.2.2.1, h.2.2.2.1, h.2.2.2.2⟩
  | removeL t =>
    have h := lc_wf_all (runOps ops) ts ss t 0 false hwf hn1 hn2
    exact ⟨ts, ss, _, _, hwf, hn1, hn2, h.1, h.2.1, h.2.2.1, h.2.2.2.1, h.2.2.2.2⟩
  | addD p =>
    have h := lc_wf_all (runOps ops) ts ss p 1 true hwf hn1 hn2
    exact ⟨ts, ss, _, _, hwf, hn1, hn2, h.1, h.2.1, h.2.2.1, h.2.2.2.1, h.2.2.2.2⟩

/-! ### The upstream/downstream notifier search

`Router::upstream_elements` / `downstream_elements` are not in the repository
sample; following the spec they are the depth-first traversal that calls
`check_match` at every visited element and respects its stop/continue return.
We model the searched region as a linear chain of elements, visited from the
origin outwards; an element either exposes a notifier under the searched name
(`Element::cast` succeeds), or is a back-pressure boundary (its port activity
flag flips pull/push, or its port-flow transition is empty), or is a plain
pass-through element. -/

/-- What a visited element looks like to the filter. -/
inductive Elem where
  | notifier (n : Notifier)
  | boundary
  | plain
deriving DecidableEq

/-- The `NotifierElementFilter` search state: matched notifiers, accumulating
signal, and the two-pass flags. -/
structure NotifierElementFilter where
  notifiers : List Notifier
  signal : NotifierSignal
  pass2 : Bool
  need_pass2 : Bool
deriving DecidableEq

/-- The filter's initial state: no notifiers, idle accumulator, first pass. -/
def initFilter : NotifierElementFilter := ⟨[], idle_signal, false, false⟩

/-- The notifier a matching element hands to the filter: its own, after the
`if (!n->signal().initialized()) n->initialize(e->router())` step. -/
def castNotifier (r : Router) (n : Notifier) : Notifier :=
  if n.signal.isInit = true then n else (n.initSig r).2

/-- `NotifierElementFilter::check_match`, returning the updated filter and
whether the walk stops along this branch: record and OR in a found notifier
(initializing its signal through the router if needed), stop on
CONTINUE_WAKE during the first pass while marking `need_pass2`, stop on
SEARCH_STOP; overwrite the accumulator with busy and stop at a back-pressure
boundary; pass through plain elements. -/
def check_match (r : Router) (f : NotifierElementFilter) (e : Elem) :
    NotifierElementFilter × Bool :=
  match e with
  | .notifier n =>
    if (castNotifier r n).search_op = SearchOp.SEARCH_CONTINUE_WAKE ∧ f.pass2 = false then
      ({ f with
          notifiers := f.notifiers ++ [castNotifier r n]
          signal := f.signal.adds (castNotifier r n).signal
          need_pass2 := true }, true)
    else
      ({ f with
          notifiers := f.notifiers ++ [castNotifier r n]
          signal := f.signal.adds (castNotifier r n).signal },
        decide ((castNotifier r n).search_op = SearchOp.SEARCH_STOP))
  | .boundary => ({ f with signal := busy_signal }, true)
  | .plain => (f, false)

/-- Modelled from the spec: one pass of `Router::upstream_elements` /
`downstream_elements` over a linear chain — visit elements in order, invoking
`check_match` and stopping when it returns true. -/
def walk (r : Router) : List Elem → NotifierElementFilter → NotifierElementFilter
  | [], f => f
  | e :: rest, f =>
    let p := check_match r f e
    if p.2 = true then p.1 else walk r rest p.1

/-- Whether one pass of the walk runs into a back-pressure boundary. -/
def hitsBoundary (r : Router) : List Elem → NotifierElementFilter → Bool
  | [], _ => false
  | e :: rest, f =>
    let p := check_match r f e
    if p.2 = true then decide (e = Elem.boundary) else hitsBoundary r rest p.1

/-- The body shared by `Notifier::upstream_empty_signal` and
`Notifier::downstream_full_signal`: run the walk, capture the accumulated
signal, maybe run a second pass (whose result the source never copies back
into `signal`), return the uninitialized signal when the walk failed or the
accumulator still equals the default-constructed signal, and otherwise the
captured signal together with the notifiers that listeners get attached to.
The modelled linear-chain walk itself always succeeds (`ok = 0`). -/
def search_signal (r : Router) (chain : List Elem) : NotifierSignal × List Notifier :=
  let f1 := walk r chain initFilter
  let signal := f1.signal
  let f2 := if ¬ sigEq signal uninitSignal ∧ f1.need_pass2 = true then
      walk r chain { f1 with pass2 := true }
    else f1
  if sigEq signal uninitSignal then (uninitSignal, [])
  else (signal, f2.notifiers)

/-- `Notifier::upstream_empty_signal` over a modelled chain (elements that
cast under `Notifier.EMPTY`). -/
def upstream_empty_signal (r : Router) (chain : List Elem) : NotifierSignal × List Notifier :=
  search_signal r chain

/-- `Notifier::downstream_full_signal` over a modelled chain (elements that
cast under `Notifier.FULL`). -/
def downstream_full_signal (r : Router) (chain : List Elem) : NotifierSignal × List Notifier :=
  search_signal r chain

/-- Whether the whole search (first pass, and the second pass when it runs)
crosses a back-pressure boundary. -/
def searchCrossesBoundary (r : Router) (chain : List Elem) : Bool :=
  hitsBoundary r chain initFilter ||
    (let f1 := walk r chain initFilter
     if ¬ sigEq f1.signal uninitSignal ∧ f1.need_pass2 = true then
       hitsBoundary r chain { f1 with pass2 := true }
     else false)

/-- A router instance for concrete search scenarios (its allocator is never
consulted: all scenario notifiers are pre-initialized). -/
def routerX : Router := ⟨0, uninitSignal⟩

/-- A CONTINUE_WAKE notifier with an initialized basic signal, for concrete
scenarios. -/
def cwX : Notifier := ⟨⟨some ⟨1⟩, 4⟩, SearchOp.SEARCH_CONTINUE_WAKE⟩

lemma hitsBoundary_cons (r : Router) (e : Elem) (rest : List Elem)
    (f : NotifierElementFilter) :
    hitsBoundary r (e :: rest) f =
      (if (check_match r f e).2 = true then decide (e = Elem.boundary)
       else hitsBoundary r rest (check_match r f e).1) := by
  rfl

lemma walk_cons (r : Router) (e : Elem) (rest : List Elem) (f : NotifierElementFilter) :
    walk r (e :: rest) f =
      (if (check_match r f e).2 = true then (check_match r f e).1
       else walk r rest (check_match r f e).1) := by
  rfl

lemma walk_hits_boundary (r : Router) (chain : List Elem) :
    ∀ f : NotifierElementFilter, f.pass2 = false → f.need_pass2 = false →
      hitsBoundary r chain f = true →
      (walk r chain f).signal = busy_signal ∧ (walk r chain f).need_pass2 = false := by
  induction chain with
  | nil =>
    intro f _ _ h
    simp [hitsBoundary] at h
  | cons e rest ih =>
    intro f hp hn h
    rw [hitsBoundary_cons] at h
    rw [walk_cons]
    cases e with
    | plain =>
      have hcm : check_match r f Elem.plain = (f, false) := rfl
      rw [hcm] at h ⊢
      rw [if_neg (by simp)] at h ⊢
      exact ih f hp hn h
    | boundary =>
      have hcm : check_match r f Elem.boundary = ({ f with signal := busy_signal }, true) := rfl
      rw [hcm] at h ⊢
      rw [if_pos rfl]
      exact ⟨rfl, hn⟩
    | notifier n =>
      rcases hop : (castNotifier r n).search_op with _ | _ | _
      · -- SEARCH_STOP: the walk stops at the notifier, not at a boundary
        have hcm : (check_match r f (Elem.notifier n)).2 = true := by
          simp only [check_match]
          rw [if_neg (by rintro ⟨h1, -⟩; rw [hop] at h1; exact absurd h1 (by decide))]
          simp [hop]
        rw [if_pos hcm] at h
        simp at h
      · -- SEARCH_CONTINUE: step into the rest of the chain
        have hcm : check_match r f (Elem.notifier n) =
            ({ f with
                notifiers := f.notifiers ++ [castNotifier r n]
                signal := f.signal.adds (castNotifier r n).signal }, false) := by
          simp only [check_match]
          rw [if_neg (by rintro ⟨h1, -⟩; rw [hop] at h1; exact absurd h1 (by decide))]
          rw [hop]
          rfl
        rw [hcm] at h ⊢
        rw [if_neg (by simp)] at h ⊢
        exact ih _ hp hn h
      · -- SEARCH_CONTINUE_WAKE on the first pass stops at the notifier
        have hcm : (check_match r f (Elem.notifier n)).2 = true := by
          simp only [check_match]
          rw [if_pos ⟨hop, hp⟩]
        rw [if_pos hcm] at h
        simp at h

lemma walk_plain (r : Router) (chain : List Elem) (f : NotifierElementFilter)
    (h : ∀ e ∈ chain, e = Elem.plain) : walk r chain f = f := by
  induction chain with
  | nil => rfl
  | cons e rest ih =>
    have he : e = Elem.plain := h e (List.mem_cons_self e rest)
    subst he
    simp only [walk, check_match]
    rw [if_neg (by simp)]
    exact ih (fun e hm => h e (List.mem_cons_of_mem _ hm))

lemma search_signal_fst (r : Router) (chain : List Elem) :
    (search_signal r chain).1 =
      (if sigEq (walk r chain initFilter).signal uninitSignal then uninitSignal
       else (walk r chain initFilter).signal) := by
  unfold search_signal
  rw [apply_ite Prod.fst]

lemma search_signal_busy (r : Router) (chain : List Elem)
    (h : hitsBoundary r chain initFilter = true) :
    (search_signal r chain).1 = busy_signal := by
  obtain ⟨hsig, -⟩ := walk_hits_boundary r chain initFilter rfl rfl h
  rw [search_signal_fst, hsig]
  decide

lemma search_signal_plain (r : Router) (chain : List Elem)
    (h : ∀ e ∈ chain, e = Elem.plain) :
    (search_signal r chain).1 = uninitSignal := by
  rw [search_signal_fst, walk_plain r chain initFilter h]
  decide

/-- `C3` (counterexample) — a search can cross a back-pressure boundary and
still not return busy: behind a CONTINUE_WAKE notifier, the boundary is only
reached on the second pass, and the returned signal was captured before that
pass; the search returns the notifier's own signal. -/
theorem claim_C3_counterexample :
    searchCrossesBoundary routerX [Elem.notifier cwX, Elem.boundary] = true ∧
    (upstream_empty_signal routerX [Elem.notifier cwX, Elem.boundary]).1 = ⟨some ⟨1⟩, 4⟩ ∧
    (upstream_empty_signal routerX [Elem.notifier cwX, Elem.boundary]).1 ≠ busy_signal ∧
    ¬ sigEq (upstream_empty_signal routerX [Elem.notifier cwX, Elem.boundary]).1 busy_signal := by
  refine ⟨by decide, by decide, by decide, by decide⟩

/-- `C3` (amended) — search conservativeness holds for the first pass: if the
*first* pass of the walk crosses a back-pressure boundary, the returned signal
is the busy singleton (a boundary crossed only by the second pass does not
reach the returned signal, which is captured before that pass); and a walk
that finds no notifier and no boundary (all elements plain, so the
accumulator still equals the default-constructed signal) returns the
uninitialized signal. -/
theorem claim_C3_search_conservative (r : Router) (chain : List Elem) :
    (hitsBoundary r chain initFilter = true →
      (upstream_empty_signal r chain).1 = busy_signal ∧
      (downstream_full_signal r chain).1 = busy_signal) ∧
    ((∀ e ∈ chain, e = Elem.plain) →
      (upstream_empty_signal r chain).1 = uninitSignal ∧
      (downstream_full_signal r chain).1 = uninitSignal) :=
  ⟨fun h => ⟨search_signal_busy r chain h, search_signal_busy r chain h⟩,
   fun h => ⟨search_signal_plain r chain h, search_signal_plain r chain h⟩⟩

/-- Witness for `claim_C3_search_conservative`: a first-pass boundary behind a
plain element yields busy; an all-plain chain yields the uninitialized
signal. -/
theorem claim_C3_witness :
    (hitsBoundary routerX [Elem.plain, Elem.boundary] initFilter = true ∧
      (upstream_empty_signal routerX [Elem.plain, Elem.boundary]).1 = busy_signal) ∧
    ((∀ e ∈ ([Elem.plain] : List Elem), e = Elem.plain) ∧
      (upstream_empty_signal routerX [Elem.plain]).1 = uninitSignal) :=
  ⟨⟨by decide,
      ((claim_C3_search_conservative routerX [Elem.plain, Elem.boundary]).1 (by decide)).1⟩,
   ⟨by decide,
      ((claim_C3_search_conservative routerX [Elem.plain]).2 (by decide)).1⟩⟩

lemma not_sigEq_busy_of_word (w : SignalWordId) (m : Nat) (hw : w ≠ staticWordId) :
    ¬ sigEq ⟨some w, m⟩ busy_signal := by
  rintro (⟨h1, h2⟩ | ⟨h1, h2⟩)
  · exact absurd h2 (by decide)
  · simp only [busy_signal] at h1
    simp only [NotifierSignal.value, Option.some.injEq] at h1
    exact hw h1

lemma adds_basic (w : SignalWordId) (ma mb : Nat) (hw : w ≠ staticWordId) :
    NotifierSignal.adds ⟨some w, ma⟩ ⟨some w, mb⟩ = ⟨some w, ma ||| mb⟩ := by
  rw [adds_eq_addsCore_of_value_eq]
  unfold addsCore
  rw [if_neg (not_sigEq_busy_of_word w ma hw), if_neg (not_sigEq_busy_of_word w mb hw),
    if_pos (Or.inl rfl)]

lemma not_sigEq_uninit_of_mask (s : NotifierSignal) (hm : s.mask ≠ 0) :
    ¬ sigEq s uninitSignal := by
  rintro (⟨h1, h2⟩ | ⟨h1, h2⟩)
  · exact hm h1
  · rw [h2] at hm
    exact hm rfl

lemma castNotifier_init (r : Router) (n : Notifier) (h : n.signal.isInit = true) :
    castNotifier r n = n := by
  unfold castNotifier
  rw [if_pos h]

/-- `C2` (counterexample) — a CONTINUE_WAKE notifier alone on the searched
path does *not* contribute only the busy-or-uninitialized outcome: the search
returns the notifier's own signal (its bits enter the accumulator already on
the first pass, and the returned signal is captured before the second
pass). -/
theorem claim_C2_counterexample :
    (upstream_empty_signal routerX [Elem.notifier cwX]).1 = ⟨some ⟨1⟩, 4⟩ ∧
    ¬ sigEq (upstream_empty_signal routerX [Elem.notifier cwX]).1 busy_signal ∧
    ¬ sigEq (upstream_empty_signal routerX [Elem.notifier cwX]).1 uninitSignal := by
  refine ⟨by decide, by decide, by decide⟩

/-- `C2` (amended) — two-pass behaviour on the rate-limiter-plus-queue path:
the final returned signal equals `queue.bit | ratelimiter.bit` (for both
search directions), the CONTINUE_WAKE notifier's bits being contributed
already on the first pass; in isolation a CONTINUE_WAKE notifier likewise
contributes its own bits, so the search returns its own signal. -/
theorem claim_C2_continue_wake (r : Router) (w : SignalWordId) (qb rb : Nat)
    (hw : w ≠ staticWordId) (hqb : qb ≠ 0) (hrb : rb ≠ 0) :
    (upstream_empty_signal r
        [Elem.notifier (Notifier.mk ⟨some w, qb⟩ SearchOp.SEARCH_CONTINUE),
         Elem.notifier (Notifier.mk ⟨some w, rb⟩ SearchOp.SEARCH_CONTINUE_WAKE)]).1 =
      ⟨some w, qb ||| rb⟩ ∧
    (downstream_full_signal r
        [Elem.notifier (Notifier.mk ⟨some w, qb⟩ SearchOp.SEARCH_CONTINUE),
         Elem.notifier (Notifier.mk ⟨some w, rb⟩ SearchOp.SEARCH_CONTINUE_WAKE)]).1 =
      ⟨some w, qb ||| rb⟩ ∧
    (upstream_empty_signal r
        [Elem.notifier (Notifier.mk ⟨some w, rb⟩ SearchOp.SEARCH_CONTINUE_WAKE)]).1 =
      ⟨some w, rb⟩ := by
  have horb : qb ||| rb ≠ 0 := by
    intro hc
    exact hqb ((nat_or_eq_zero_iff qb rb).mp hc).1
  have e1 : walk r
      [Elem.notifier (Notifier.mk ⟨some w, qb⟩ SearchOp.SEARCH_CONTINUE),
       Elem.notifier (Notifier.mk ⟨some w, rb⟩ SearchOp.SEARCH_CONTINUE_WAKE)] initFilter =
      ⟨[Notifier.mk ⟨some w, qb⟩ SearchOp.SEARCH_CONTINUE,
        Notifier.mk ⟨some w, rb⟩ SearchOp.SEARCH_CONTINUE_WAKE],
       ⟨some w, qb ||| rb⟩, false, true⟩ := by
    simp [walk, check_match, castNotifier, NotifierSignal.isInit, initFilter,
      adds_idle, adds_basic w qb rb hw]
  have e2 : walk r
      [Elem.notifier (Notifier.mk ⟨some w, rb⟩ SearchOp.SEARCH_CONTINUE_WAKE)] initFilter =
      ⟨[Notifier.mk ⟨some w, rb⟩ SearchOp.SEARCH_CONTINUE_WAKE],
       ⟨some w, rb⟩, false, true⟩ := by
    simp [walk, check_match, castNotifier, NotifierSignal.isInit, initFilter, adds_idle]
  have main1 : (search_signal r
      [Elem.notifier (Notifier.mk ⟨some w, qb⟩ SearchOp.SEARCH_CONTINUE),
       Elem.notifier (Notifier.mk ⟨some w, rb⟩ SearchOp.SEARCH_CONTINUE_WAKE)]).1 =
      ⟨some w, qb ||| rb⟩ := by
    rw [search_signal_fst, e1]
    rw [if_neg (not_sigEq_uninit_of_mask ⟨some w, qb ||| rb⟩ horb)]
  have main2 : (search_signal r
      [Elem.notifier (Notifier.mk ⟨some w, rb⟩ SearchOp.SEARCH_CONTINUE_WAKE)]).1 =
      ⟨some w, rb⟩ := by
    rw [search_signal_fst, e2]
    rw [if_neg (not_sigEq_uninit_of_mask ⟨some w, rb⟩ hrb)]
  exact ⟨main1, main1, main2⟩

/-- Witness for `claim_C2_continue_wake` with basic bits 4 and 8 on router
word 1. -/
theorem claim_C2_witness :
    ((⟨1⟩ : SignalWordId) ≠ staticWordId ∧ (4 : Nat) ≠ 0 ∧ (8 : Nat) ≠ 0) ∧
    ((upstream_empty_signal routerX
        [Elem.notifier (Notifier.mk ⟨some ⟨1⟩, 4⟩ SearchOp.SEARCH_CONTINUE),
         Elem.notifier (Notifier.mk ⟨some ⟨1⟩, 8⟩ SearchOp.SEARCH_CONTINUE_WAKE)]).1 =
        ⟨some ⟨1⟩, 4 ||| 8⟩ ∧
      (downstream_full_signal routerX
        [Elem.notifier (Notifier.mk ⟨some ⟨1⟩, 4⟩ SearchOp.SEARCH_CONTINUE),
         Elem.notifier (Notifier.mk ⟨some ⟨1⟩, 8⟩ SearchOp.SEARCH_CONTINUE_WAKE)]).1 =
        ⟨some ⟨1⟩, 4 ||| 8⟩ ∧
      (upstream_empty_signal routerX
        [Elem.notifier (Notifier.mk ⟨some ⟨1⟩, 8⟩ SearchOp.SEARCH_CONTINUE_WAKE)]).1 =
        ⟨some ⟨1⟩, 8⟩) :=
  ⟨⟨by decide, by decide, by decide⟩,
    claim_C2_continue_wake routerX ⟨1⟩ 4 8 (by decide) (by decide) (by decide)⟩

end Click
